import Mathlib

/-!
# CivicPulse offline submission queue — verification development

Shallow embedding of the client-side draft queue and sync engine of the
CivicPulse repository, together with spec-modelled definitions for the two
server-side components (upvote ledger, haversine duplicate detector) whose
implementation is not part of the frontend sources.

Embedded source functions:
* `uploadReport` (src/frontend — the retrying upload in the api service):
  one `fetch` per attempt; a non-2xx response or a network error throws,
  and the catch block sleeps a constant 2000 ms and recurses with
  `retries - 1`; at `retries = 0` it returns `false`.
* `syncDrafts` (src/frontend/src/services/sync.ts): loads all drafts,
  uploads each in order, deletes exactly those whose upload returned true.
* `getDrafts` (src/frontend/src/services/db.ts): `db.getAll(STORE)` on an
  IndexedDB object store with `keyPath: "id"`; IndexedDB `getAll` yields
  records in ascending key order, so the result is the store sorted by id.
* `syncOfflineDrafts` (ReportContext provider): if offline, do nothing;
  otherwise move every draft into the in-memory report list and delete it
  from IndexedDB, with no network interaction at all.
* the `App` connectivity effect: whenever `isOnline` flips to true the
  effect fires `syncDrafts()` unconditionally — there is no in-flight guard.
-/

/-- Outcome of one `fetch` attempt: either the promise rejects (network
error) or a response with an HTTP status arrives. -/
inductive FetchOutcome where
  | netError : FetchOutcome
  | response : Nat → FetchOutcome
deriving DecidableEq, Repr

/-- `res.ok` — true exactly for statuses in [200, 300). -/
def fetchOk : FetchOutcome → Bool
  | .netError => false
  | .response s => 200 ≤ s && s < 300

/-- Result of `uploadReport` given the environment `env` (outcome of the
`i`-th fetch attempt), the index `k` of the current attempt and the
remaining retry budget (source default: 3).  Mirrors the source: a
successful (`res.ok`) attempt returns `true`; a failed attempt with budget
left retries; an exhausted budget returns `false`. -/
def uploadResult (env : Nat → FetchOutcome) (k : Nat) : Nat → Bool
  | 0 => fetchOk (env k)
  | r + 1 => if fetchOk (env k) then true else uploadResult env (k + 1) r

/-- Number of fetch attempts `uploadReport` performs. -/
def uploadAttempts (env : Nat → FetchOutcome) (k : Nat) : Nat → Nat
  | 0 => 1
  | r + 1 => if fetchOk (env k) then 1 else 1 + uploadAttempts env (k + 1) r

/-- The sleep durations (ms) scheduled between attempts: the source's catch
block always runs `setTimeout(r, 2000)` before recursing, so every entry is
the constant 2000. -/
def uploadDelays (env : Nat → FetchOutcome) (k : Nat) : Nat → List Nat
  | 0 => []
  | r + 1 => if fetchOk (env k) then [] else 2000 :: uploadDelays env (k + 1) r

/-- The delay schedule the spec prescribes: `base_delay * 2^attempt`. -/
def specBackoffDelay (baseDelay attempt : Nat) : Nat := baseDelay * 2 ^ attempt

/-- An environment in which every attempt yields the same outcome. -/
def constOutcome (o : FetchOutcome) : Nat → FetchOutcome := fun _ => o

theorem uploadResult_true_of_ok (env : Nat → FetchOutcome) (k r : Nat)
    (h : fetchOk (env k) = true) : uploadResult env k r = true := by
  cases r with
  | zero => simpa [uploadResult] using h
  | succ r => simp [uploadResult, h]

theorem uploadResult_iff (env : Nat → FetchOutcome) (k r : Nat) :
    uploadResult env k r = true ↔ ∃ i ≤ r, fetchOk (env (k + i)) = true := by
  induction r generalizing k with
  | zero =>
    simp only [uploadResult]
    constructor
    · intro h; exact ⟨0, Nat.le_refl 0, by simpa using h⟩
    · rintro ⟨i, hi, h⟩
      have : i = 0 := Nat.le_zero.mp hi
      subst this; simpa using h
  | succ r ih =>
    simp only [uploadResult]
    by_cases hk : fetchOk (env k) = true
    · simp only [hk, if_true, true_iff]
      exact ⟨0, Nat.zero_le _, by simpa using hk⟩
    · simp only [hk, if_false, Bool.false_eq_true]
      rw [ih]
      constructor
      · rintro ⟨i, hi, h⟩
        exact ⟨i + 1, Nat.succ_le_succ hi, by simpa [Nat.add_comm, Nat.add_assoc, Nat.add_left_comm] using h⟩
      · rintro ⟨i, hi, h⟩
        cases i with
        | zero => exact absurd (by simpa using h) hk
        | succ i =>
          exact ⟨i, Nat.le_of_succ_le_succ hi, by simpa [Nat.add_comm, Nat.add_assoc, Nat.add_left_comm] using h⟩

theorem uploadAttempts_le (env : Nat → FetchOutcome) (k r : Nat) :
    uploadAttempts env k r ≤ r + 1 := by
  induction r generalizing k with
  | zero => simp [uploadAttempts]
  | succ r ih =>
    simp only [uploadAttempts]
    cases hk : fetchOk (env k) with
    | true => simp
    | false =>
      simp only [Bool.false_eq_true, if_false]
      have := ih (k + 1)
      omega

theorem uploadAttempts_of_all_fail (env : Nat → FetchOutcome)
    (hfail : ∀ i, fetchOk (env i) = false) (k r : Nat) :
    uploadAttempts env k r = r + 1 := by
  induction r generalizing k with
  | zero => simp [uploadAttempts]
  | succ r ih =>
    simp only [uploadAttempts, hfail k, Bool.false_eq_true, if_false, ih (k + 1)]
    omega

theorem uploadDelays_of_all_fail (env : Nat → FetchOutcome)
    (hfail : ∀ i, fetchOk (env i) = false) (k r : Nat) :
    uploadDelays env k r = List.replicate r 2000 := by
  induction r generalizing k with
  | zero => simp [uploadDelays]
  | succ r ih => simp [uploadDelays, hfail k, ih (k + 1), List.replicate_succ]

/-- C7: retrying is bounded: `uploadReport` performs at most `retries + 1`
fetch attempts (with the source's default budget of 3, at most 4), the
recursion decreases the budget on every failed attempt, and it always
terminates with a boolean (it is a total function into `Bool`). -/
theorem upload_retry_bounded (env : Nat → FetchOutcome) (k r : Nat) :
    uploadAttempts env k r ≤ r + 1 ∧
      uploadAttempts env k 3 ≤ 4 ∧
      (fetchOk (env k) = false →
        uploadAttempts env k (r + 1) = 1 + uploadAttempts env (k + 1) r) ∧
      (uploadResult env k r = true ∨ uploadResult env k r = false) := by
  refine ⟨uploadAttempts_le env k r, uploadAttempts_le env k 3, ?_, ?_⟩
  · intro hk; simp [uploadAttempts, hk]
  · cases uploadResult env k r <;> simp

/-- C7 witness at a concrete all-failing environment and budget 3. -/
theorem upload_retry_bounded_witness :
    uploadAttempts (constOutcome .netError) 0 3 ≤ 3 + 1 ∧
      fetchOk (constOutcome .netError 0) = false ∧
      uploadAttempts (constOutcome .netError) 0 (2 + 1)
        = 1 + uploadAttempts (constOutcome .netError) 1 2 :=
  ⟨(upload_retry_bounded (constOutcome .netError) 0 3).1,
    by decide,
    (upload_retry_bounded (constOutcome .netError) 0 2).2.2.1 (by decide)⟩

theorem uploadResult_eq_false_iff (env : Nat → FetchOutcome) (k r : Nat) :
    uploadResult env k r = false ↔ ∀ i ≤ r, fetchOk (env (k + i)) = false := by
  rw [← Bool.not_eq_true, uploadResult_iff]
  push_neg
  constructor
  · intro h i hi
    simpa [Bool.not_eq_true] using h i hi
  · intro h i hi
    simp [h i hi]

/-- C10: `uploadReport` never throws: it is a total function settling to a
boolean, `true` exactly when some attempt within the budget received an
HTTP-OK response, and `false` (rather than an exception) otherwise. -/
theorem upload_settles_to_boolean (env : Nat → FetchOutcome) (k r : Nat) :
    (uploadResult env k r = true ↔ ∃ i ≤ r, fetchOk (env (k + i)) = true) ∧
      (uploadResult env k r = false ↔ ∀ i ≤ r, fetchOk (env (k + i)) = false) :=
  ⟨uploadResult_iff env k r, uploadResult_eq_false_iff env k r⟩

/-- C10 witness: against a server answering 500 on every attempt, the
call settles to `false`. -/
theorem upload_settles_to_boolean_witness :
    uploadResult (constOutcome (.response 500)) 0 3 = false :=
  ((upload_settles_to_boolean (constOutcome (.response 500)) 0 3).2).mpr
    fun _ _ => rfl

/-- C3 (code behavior at the failing input): when every fetch attempt
fails, the scheduled delays are the constant list [2000, 2000, 2000] — not
the exponential schedule [2000, 4000, 8000] that `specBackoffDelay` (the
spec's `base_delay * 2^attempt`) prescribes for attempts 0, 1, 2. -/
theorem backoff_constant_not_exponential :
    uploadDelays (constOutcome .netError) 0 3 = [2000, 2000, 2000] ∧
      [specBackoffDelay 2000 0, specBackoffDelay 2000 1, specBackoffDelay 2000 2]
        = [2000, 4000, 8000] ∧
      uploadDelays (constOutcome .netError) 0 3
        ≠ [specBackoffDelay 2000 0, specBackoffDelay 2000 1, specBackoffDelay 2000 2] := by
  refine ⟨by decide, by decide, by decide⟩

/-- C4 counterexample: on a validation error (HTTP 400, a 4xx other than
conflict) the upload is re-issued: with every attempt answering 400, the
code performs 4 fetch attempts, not the single attempt the claim
("never retried") would allow. -/
theorem validation_error_retried :
    uploadAttempts (constOutcome (.response 400)) 0 3 = 4 ∧
      uploadAttempts (constOutcome (.response 400)) 0 3 ≠ 1 := by
  refine ⟨by decide, by decide⟩

/-- C4 amended: a 4xx validation response is retried like any other
failure: with budget `r` the code performs exactly `r + 1` attempts
(sleeping 2000 ms between them) and only then surfaces `false`; the
failure is not surfaced immediately after the first 4xx. -/
theorem validation_error_retry_schedule (r k : Nat) :
    uploadAttempts (constOutcome (.response 400)) k r = r + 1 ∧
      uploadResult (constOutcome (.response 400)) k r = false ∧
      uploadDelays (constOutcome (.response 400)) k r = List.replicate r 2000 := by
  have hfail : ∀ i, fetchOk (constOutcome (.response 400) i) = false := fun _ => rfl
  refine ⟨uploadAttempts_of_all_fail _ hfail k r, ?_, uploadDelays_of_all_fail _ hfail k r⟩
  exact (uploadResult_eq_false_iff (constOutcome (.response 400)) k r).mpr
    fun i _ => hfail (k + i)

/-- The draft record, mirroring `Report` in src/frontend/src/types/index.ts
(the type stored in the drafts object store and uploaded by the sync
engine).  `latitude`/`longitude`/`severity` are opaque to the queue logic
and embedded as integers; `timestamp` holds the creation instant (the
source stores `Date.now()` rendered as a string). -/
structure Report where
  id : String
  title : String
  category : String
  severity : Int
  status : String
  description : Option String
  latitude : Int
  longitude : Int
  imageUrl : String
  timestamp : Nat
deriving DecidableEq, Repr

/-- Lexicographic comparison of two key strings by code units — the order
IndexedDB uses for string keys. -/
def keyLeList : List Char → List Char → Bool
  | [], _ => true
  | _ :: _, [] => false
  | a :: as, b :: bs =>
    if a.toNat < b.toNat then true
    else if b.toNat < a.toNat then false
    else keyLeList as bs

theorem keyLeList_total (as : List Char) :
    ∀ bs, keyLeList as bs = true ∨ keyLeList bs as = true := by
  induction as with
  | nil => intro bs; left; rfl
  | cons a as ih =>
    intro bs
    cases bs with
    | nil => right; rfl
    | cons b bs =>
      rcases Nat.lt_trichotomy a.toNat b.toNat with h | h | h
      · left; simp [keyLeList, h]
      · have h1 : ¬ a.toNat < b.toNat := by omega
        have h2 : ¬ b.toNat < a.toNat := by omega
        rcases ih bs with hc | hc
        · left; simp [keyLeList, h1, h2, hc]
        · right; simp [keyLeList, h1, h2, hc]
      · right; simp [keyLeList, h]

theorem keyLeList_trans (as : List Char) :
    ∀ bs cs, keyLeList as bs = true → keyLeList bs cs = true →
      keyLeList as cs = true := by
  induction as with
  | nil => intro bs cs _ _; rfl
  | cons a as ih =>
    intro bs cs h1 h2
    cases bs with
    | nil => simp [keyLeList] at h1
    | cons b bs =>
      cases cs with
      | nil => simp [keyLeList] at h2
      | cons c cs =>
        by_cases hab : a.toNat < b.toNat
        · by_cases hbc : b.toNat < c.toNat
          · have : a.toNat < c.toNat := by omega
            simp [keyLeList, this]
          · by_cases hcb : c.toNat < b.toNat
            · simp [keyLeList, hbc, hcb] at h2
            · have : a.toNat < c.toNat := by omega
              simp [keyLeList, this]
        · by_cases hba : b.toNat < a.toNat
          · simp [keyLeList, hab, hba] at h1
          · simp only [keyLeList, if_neg hab, if_neg hba] at h1
            by_cases hbc : b.toNat < c.toNat
            · have : a.toNat < c.toNat := by omega
              simp [keyLeList, this]
            · by_cases hcb : c.toNat < b.toNat
              · simp [keyLeList, hbc, hcb] at h2
              · simp only [keyLeList, if_neg hbc, if_neg hcb] at h2
                have hnac : ¬ a.toNat < c.toNat := by omega
                have hnca : ¬ c.toNat < a.toNat := by omega
                simp only [keyLeList, if_neg hnac, if_neg hnca]
                exact ih bs cs h1 h2

/-- Ascending IndexedDB key order on the drafts store, whose `keyPath` is
`"id"`: records compare by their string id, code-unit lexicographically. -/
def draftKeyLe (a b : Report) : Prop := keyLeList a.id.data b.id.data = true

instance : DecidableRel draftKeyLe := fun a b =>
  instDecidableEqBool (keyLeList a.id.data b.id.data) true

instance : IsTotal Report draftKeyLe :=
  ⟨fun a b => keyLeList_total a.id.data b.id.data⟩

instance : IsTrans Report draftKeyLe :=
  ⟨fun _ b _ h1 h2 => keyLeList_trans _ b.id.data _ h1 h2⟩

/-- `getDrafts` (src/frontend/src/services/db.ts): `db.getAll(STORE)`.
IndexedDB `getAll` returns the records of the store in ascending key
order, i.e. the store (`store` lists records in insertion order) sorted by
id. -/
def getDrafts (store : List Report) : List Report :=
  List.insertionSort draftKeyLe store

/-- `deleteDraft id` (db.ts): removes the record whose key equals `id`. -/
def deleteDraft (store : List Report) (i : String) : List Report :=
  store.filter (fun x => !(x.id == i))

/-- The loop body of `syncDrafts`: for each draft in the given order,
upload it and delete it from the store exactly when the upload returned
`true`.  `env d` gives the fetch outcomes for draft `d`'s attempts. -/
def runSync (env : Report → Nat → FetchOutcome) :
    List Report → List Report → List Report
  | [], store => store
  | d :: ds, store =>
    runSync env ds
      (if uploadResult (env d) 0 3 then deleteDraft store d.id else store)

/-- `syncDrafts` (src/frontend/src/services/sync.ts): load all drafts
(ascending key order), upload each with the default retry budget 3, and
delete the successfully uploaded ones.  Returns the remaining store. -/
def syncDrafts (env : Report → Nat → FetchOutcome) (store : List Report) :
    List Report :=
  runSync env (getDrafts store) store

/-- Whether some draft in `ds` uploads successfully and carries the same
id as `x` (hence deletes `x` from the store during the drain). -/
def removedBy (env : Report → Nat → FetchOutcome) (ds : List Report)
    (x : Report) : Bool :=
  ds.any (fun d => uploadResult (env d) 0 3 && d.id == x.id)

theorem string_beq_comm (a b : String) : (a == b) = (b == a) := by
  by_cases h : a = b
  · subst h; rfl
  · rw [beq_eq_false_iff_ne.mpr h, beq_eq_false_iff_ne.mpr (Ne.symm h)]

theorem runSync_eq_filter (env : Report → Nat → FetchOutcome)
    (ds store : List Report) :
    runSync env ds store = store.filter (fun x => !removedBy env ds x) := by
  induction ds generalizing store with
  | nil =>
    simp [runSync, removedBy]
  | cons d ds ih =>
    simp only [runSync]
    by_cases hup : uploadResult (env d) 0 3 = true
    · simp only [hup, if_true, ih, deleteDraft, List.filter_filter]
      apply List.filter_congr
      intro x _
      simp only [removedBy, List.any_cons, hup, Bool.true_and, Bool.not_or]
      rw [Bool.and_comm, string_beq_comm]
    · simp only [hup, if_false, ih]
      apply List.filter_congr
      intro x _
      simp only [removedBy, List.any_cons, Bool.not_or,
        Bool.eq_false_iff.mpr hup, Bool.false_and, Bool.not_false, Bool.true_and]

theorem mem_getDrafts (store : List Report) (d : Report) :
    d ∈ getDrafts store ↔ d ∈ store :=
  (List.perm_insertionSort draftKeyLe store).mem_iff

/-- With the store's keys unique (IndexedDB guarantees key uniqueness), a
draft is deleted by the drain iff some of its upload attempts got an
HTTP-OK response. -/
theorem mem_syncDrafts_iff (env : Report → Nat → FetchOutcome)
    (store : List Report) (d : Report) (hmem : d ∈ store)
    (hnodup : (store.map Report.id).Nodup) :
    d ∉ syncDrafts env store ↔
      (∃ i ≤ 3, fetchOk (env d i) = true) := by
  have hid : ∀ d' ∈ store, d'.id = d.id → d' = d := by
    intro d' hd' hideq
    by_contra hne
    have := List.inj_on_of_nodup_map hnodup
    exact hne (this hd' hmem hideq)
  rw [syncDrafts, runSync_eq_filter]
  have hrem : removedBy env (getDrafts store) d = true ↔
      uploadResult (env d) 0 3 = true := by
    simp only [removedBy, List.any_eq_true, Bool.and_eq_true, beq_iff_eq]
    constructor
    · rintro ⟨d', hd', hup, hideq⟩
      have : d' = d := hid d' ((mem_getDrafts store d').mp hd') hideq
      subst this; exact hup
    · intro hup
      exact ⟨d, (mem_getDrafts store d).mpr hmem, hup, rfl⟩
  rw [List.mem_filter]
  constructor
  · intro h
    have : ¬ (!removedBy env (getDrafts store) d) = true := fun hb => h ⟨hmem, hb⟩
    have : removedBy env (getDrafts store) d = true := by
      simpa [Bool.not_eq_true'] using this
    have hup := hrem.mp this
    simpa using (uploadResult_iff (env d) 0 3).mp hup
  · intro hex
    have hup : uploadResult (env d) 0 3 = true :=
      (uploadResult_iff (env d) 0 3).mpr (by simpa using hex)
    intro hmemf
    have := hmemf.2
    rw [hrem.mpr hup] at this
    simp at this

/-- Two concrete drafts: `draftOldB` was created first (timestamp 1) but
carries the key "b"; `draftNewA` was created later (timestamp 2) with key
"a". -/
def draftOldB : Report :=
  { id := "b", title := "Pothole on Main", category := "Pothole",
    severity := 3, status := "Reported", description := none,
    latitude := 40, longitude := -111, imageUrl := "img-b", timestamp := 1 }

/-- The younger draft with the lexicographically smaller key. -/
def draftNewA : Report :=
  { id := "a", title := "Water leak", category := "Water Leak",
    severity := 5, status := "Reported", description := none,
    latitude := 34, longitude := -118, imageUrl := "img-a", timestamp := 2 }

/-- `syncOfflineDrafts` (the ReportContext provider): if offline, do
nothing; otherwise append every queued draft to the in-memory report list
and delete it from IndexedDB.  The function performs no network request —
its embedding takes no fetch environment because the source consults no
server.  Returns (reports, remaining drafts). -/
def syncOfflineDrafts (online : Bool) (reports drafts : List Report) :
    List Report × List Report :=
  if online then (reports ++ drafts, []) else (reports, drafts)

/-- C2 amended: in the sync-engine drain (`syncDrafts`) a draft is removed
from the local queue iff some upload attempt for it (within the budget)
received an HTTP-OK (2xx) response; every other outcome — conflict 409,
validation 4xx, transient 5xx/network error — leaves it queued.  A 2xx is
the only acceptance the engine recognizes: a submission the server
accepted as an upvote (409 conflict) does not remove the draft, and the
context provider's `syncOfflineDrafts` drain deletes drafts without any
server acceptance at all. -/
theorem draft_removed_iff_http_ok (env : Report → Nat → FetchOutcome)
    (store : List Report) (d : Report) (hmem : d ∈ store)
    (hnodup : (store.map Report.id).Nodup) :
    d ∉ syncDrafts env store ↔ (∃ i ≤ 3, fetchOk (env d i) = true) :=
  mem_syncDrafts_iff env store d hmem hnodup

/-- C2 witness: a single queued draft whose first attempt returns 201 is
removed by the drain. -/
theorem draft_removed_iff_http_ok_witness :
    draftOldB ∈ [draftOldB] ∧ ([draftOldB].map Report.id).Nodup ∧
      (draftOldB ∉ syncDrafts (fun _ => constOutcome (.response 201)) [draftOldB] ↔
        (∃ i ≤ 3, fetchOk (constOutcome (.response 201) i) = true)) :=
  ⟨by simp, by simp,
    draft_removed_iff_http_ok (fun _ => constOutcome (.response 201))
      [draftOldB] draftOldB (by simp) (by simp)⟩

/-- C2 counterexample: the claim "a draft is removed iff the server has
durably accepted it" is false for the `syncOfflineDrafts` drain: on the
offline→online transition it removes the queued draft even though it
performs no server interaction whatsoever (its embedding takes no fetch
environment because the source issues no request), so no server
acceptance can exist. -/
theorem draft_removed_without_server_acceptance :
    (syncOfflineDrafts true [] [draftOldB]).2 = [] ∧ draftOldB ∈ [draftOldB] :=
  ⟨rfl, by simp⟩

/-- C1 counterexample: with the server answering 409 Conflict on every
attempt, `uploadReport` returns `false` (a failure, not terminal success)
and the drain leaves the draft in the queue instead of removing it;
no existing-report reference is produced (the upload's only output is the
boolean). -/
theorem conflict_response_not_terminal_success :
    uploadResult (constOutcome (.response 409)) 0 3 = false ∧
      syncDrafts (fun _ => constOutcome (.response 409)) [draftOldB] = [draftOldB] := by
  constructor
  · rfl
  · rfl

/-- C1 amended: a 409 conflict response is treated as a failure, not as
terminal success: `uploadReport` retries it like any other error and then
settles to `false`, and the drain leaves the draft queued; the engine
surfaces no existing-report reference (its only output is the boolean
result and the remaining queue). -/
theorem conflict_draft_remains_queued (env : Report → Nat → FetchOutcome)
    (store : List Report) (d : Report) (hmem : d ∈ store)
    (hnodup : (store.map Report.id).Nodup)
    (h409 : ∀ i, env d i = .response 409) :
    uploadResult (env d) 0 3 = false ∧ d ∈ syncDrafts env store := by
  have hfail : ∀ i, fetchOk (env d i) = false := fun i => by rw [h409 i]; rfl
  refine ⟨(uploadResult_eq_false_iff (env d) 0 3).mpr fun i _ => by
    rw [Nat.zero_add]; exact hfail i, ?_⟩
  by_contra hnot
  obtain ⟨i, _, hOk⟩ := (mem_syncDrafts_iff env store d hmem hnodup).mp hnot
  rw [hfail i] at hOk
  exact Bool.false_ne_true hOk

/-- C1 witness: the concrete one-draft queue against an always-409
server. -/
theorem conflict_draft_remains_queued_witness :
    uploadResult ((fun _ => constOutcome (.response 409)) draftOldB) 0 3 = false ∧
      draftOldB ∈ syncDrafts (fun _ => constOutcome (.response 409)) [draftOldB] :=
  conflict_draft_remains_queued (fun _ => constOutcome (.response 409))
    [draftOldB] draftOldB (by simp) (by simp) (fun _ => rfl)

/-- C5 counterexample: `getDrafts` is ascending-key order, not
creation order: with the older draft (timestamp 1) keyed "b" and the
younger draft (timestamp 2) keyed "a", `getDrafts` returns the younger
draft first, so the list is not ordered oldest-first, and the drain
(which processes `getDrafts`' result in list order) submits the younger
draft first. -/
theorem getDrafts_not_oldest_first :
    getDrafts [draftOldB, draftNewA] = [draftNewA, draftOldB] ∧
      draftOldB.timestamp < draftNewA.timestamp ∧
      ¬ List.Sorted (fun x y : Report => x.timestamp ≤ y.timestamp)
        (getDrafts [draftOldB, draftNewA]) := by
  refine ⟨by decide, by decide, ?_⟩
  intro h
  have : getDrafts [draftOldB, draftNewA] = [draftNewA, draftOldB] := by decide
  rw [this] at h
  have := List.rel_of_sorted_cons h draftOldB (by simp)
  revert this
  decide

/-- C5 amended: `getDrafts` returns the drafts of the store sorted in
ascending id (IndexedDB key) order — a permutation of the store, sorted by
`draftKeyLe` — and the drain processes exactly that sequence; the sequence
is additionally oldest-first (sorted by creation timestamp) whenever key
order agrees with creation order on the store's drafts, e.g. when ids are
assigned monotonically with creation time. -/
theorem getDrafts_key_order (store : List Report)
    (hagree : ∀ a ∈ store, ∀ b ∈ store, draftKeyLe a b → a.timestamp ≤ b.timestamp) :
    List.Sorted draftKeyLe (getDrafts store) ∧
      (getDrafts store).Perm store ∧
      List.Sorted (fun x y : Report => x.timestamp ≤ y.timestamp)
        (getDrafts store) := by
  refine ⟨List.sorted_insertionSort draftKeyLe store,
    List.perm_insertionSort draftKeyLe store, ?_⟩
  exact (List.sorted_insertionSort draftKeyLe store).imp_of_mem
    fun {a b} ha hb hr =>
      hagree a ((mem_getDrafts store a).mp ha) b ((mem_getDrafts store b).mp hb) hr

/-- A draft whose key "c" and timestamp 5 come before `draftD`'s. -/
def draftC : Report :=
  { id := "c", title := "Graffiti", category := "Vandalism",
    severity := 2, status := "Reported", description := none,
    latitude := 51, longitude := 0, imageUrl := "img-c", timestamp := 5 }

/-- A draft created after `draftC`, with the larger key "d". -/
def draftD : Report :=
  { id := "d", title := "Streetlight out", category := "Broken Light",
    severity := 4, status := "Reported", description := none,
    latitude := 48, longitude := 2, imageUrl := "img-d", timestamp := 6 }

/-- C5 witness: a two-draft store whose keys agree with creation order. -/
theorem getDrafts_key_order_witness :
    List.Sorted draftKeyLe (getDrafts [draftD, draftC]) ∧
      (getDrafts [draftD, draftC]).Perm [draftD, draftC] ∧
      List.Sorted (fun x y : Report => x.timestamp ≤ y.timestamp)
        (getDrafts [draftD, draftC]) := by
  refine getDrafts_key_order [draftD, draftC] ?_
  decide

/-- State of the connectivity-triggered drain machinery in `App`:
the last observed reachability and the number of `syncDrafts()` drains
currently in flight. -/
structure AppState where
  isOnline : Bool
  activeDrains : Nat
deriving DecidableEq, Repr

/-- Events the `App` component reacts to: a reachability change reported
by `useOnlineStatus`, or the completion of an in-flight drain. -/
inductive AppEvent where
  | netChange : Bool → AppEvent
  | drainDone : AppEvent

/-- The `App` effect: whenever `isOnline` flips from false to true the
effect body runs `syncDrafts()` unconditionally — the source has no guard
checking whether a previous drain is still in flight, so each
offline→online edge adds one active drain. -/
def appStep (s : AppState) : AppEvent → AppState
  | .netChange b =>
    if b && !s.isOnline then { isOnline := true, activeDrains := s.activeDrains + 1 }
    else { s with isOnline := b }
  | .drainDone => { s with activeDrains := s.activeDrains - 1 }

/-- Run the `App` machinery over a sequence of events. -/
def appRun (s : AppState) (es : List AppEvent) : AppState :=
  es.foldl appStep s

/-- C6 counterexample: a connectivity flap during an active drain starts a
second concurrent drain: after online, offline, online (with the first
drain still running), two drains are in flight at once. -/
theorem connectivity_flap_starts_second_drain :
    (appRun ⟨false, 0⟩
        [.netChange true, .netChange false, .netChange true]).activeDrains = 2 ∧
      ¬ (appRun ⟨false, 0⟩
          [.netChange true, .netChange false, .netChange true]).activeDrains ≤ 1 := by
  refine ⟨rfl, by decide⟩

/-- C6 amended: drains are not mutually excluded: every offline→online
edge starts one more drain regardless of how many are already active
(submissions are sequential only within a single drain, which awaits each
upload in turn). -/
theorem online_edge_always_starts_drain (s : AppState)
    (h : s.isOnline = false) :
    (appStep s (.netChange true)).activeDrains = s.activeDrains + 1 := by
  simp [appStep, h]

/-- C6 witness: an offline state with one drain already active gains a
second one on the next online edge. -/
theorem online_edge_always_starts_drain_witness :
    (appStep ⟨false, 1⟩ (.netChange true)).activeDrains = 1 + 1 :=
  online_edge_always_starts_drain ⟨false, 1⟩ rfl

/-- Modelled from the spec: the Upvote Ledger (server-side; its
implementation is not among the frontend sources).  The ledger is the set
of Upvote rows, keyed by (report reference, voter reference);
`upvote` has insert-if-absent semantics: a call with a key already present
is a no-op returning the current state, a first insert adds exactly one
row. -/
def upvote (rows : List (String × String)) (reportId voterId : String) :
    List (String × String) :=
  if (reportId, voterId) ∈ rows then rows else (reportId, voterId) :: rows

/-- Modelled from the spec: `Report.upvote_count` is derived — it always
equals the count of Upvote rows for that report. -/
def upvoteCount (rows : List (String × String)) (reportId : String) : Nat :=
  (rows.filter (fun p => p.1 == reportId)).length

theorem mem_upvote (rows : List (String × String)) (r v : String) :
    (r, v) ∈ upvote rows r v := by
  unfold upvote
  by_cases h : (r, v) ∈ rows
  · simp only [if_pos h]; exact h
  · simp [h]

theorem upvote_of_mem (rows : List (String × String)) (r v : String)
    (h : (r, v) ∈ rows) : upvote rows r v = rows := by
  simp [upvote, h]

/-- C8: a second `upvote` call with the same (report, voter) key is a
no-op returning the current state; starting from a ledger without that
row, two identical calls raise the report's upvote count by exactly 1
(never 2) and leave exactly one row for the pair. -/
theorem upvote_idempotent (rows : List (String × String)) (r v : String)
    (h : (r, v) ∉ rows) :
    (∀ rows', upvote (upvote rows' r v) r v = upvote rows' r v) ∧
      upvoteCount (upvote (upvote rows r v) r v) r = upvoteCount rows r + 1 ∧
      List.count (r, v) (upvote (upvote rows r v) r v) = 1 := by
  have hnoop : ∀ rows', upvote (upvote rows' r v) r v = upvote rows' r v :=
    fun rows' => upvote_of_mem _ r v (mem_upvote rows' r v)
  have hinsert : upvote rows r v = (r, v) :: rows := by simp [upvote, h]
  refine ⟨hnoop, ?_, ?_⟩
  · rw [hnoop rows, hinsert]
    simp [upvoteCount]
  · rw [hnoop rows, hinsert]
    rw [List.count_cons_self, List.count_eq_zero.mpr h]

/-- C8 witness: an empty ledger, one report, one voter. -/
theorem upvote_idempotent_witness :
    (∀ rows', upvote (upvote rows' "report-1" "voter-1") "report-1" "voter-1"
        = upvote rows' "report-1" "voter-1") ∧
      upvoteCount (upvote (upvote [] "report-1" "voter-1") "report-1" "voter-1")
          "report-1"
        = upvoteCount [] "report-1" + 1 ∧
      List.count ("report-1", "voter-1")
          (upvote (upvote [] "report-1" "voter-1") "report-1" "voter-1") = 1 :=
  upvote_idempotent [] "report-1" "voter-1" (by simp)

/-- A point on the sphere, latitude and longitude in radians. -/
structure GeoPoint where
  lat : ℝ
  lon : ℝ

/-- Modelled from the spec: the haversine term
`sin²(Δlat/2) + cos(lat1)·cos(lat2)·sin²(Δlon/2)` of the Duplicate
Detector's great-circle distance (server-side; its implementation is not
among the frontend sources). -/
noncomputable def haversineTerm (p q : GeoPoint) : ℝ :=
  Real.sin ((q.lat - p.lat) / 2) ^ 2 +
    Real.cos p.lat * Real.cos q.lat * Real.sin ((q.lon - p.lon) / 2) ^ 2

/-- The angular separation the haversine formula assigns to two points:
`2·asin(sqrt(haversineTerm))`. -/
noncomputable def angularSeparation (p q : GeoPoint) : ℝ :=
  2 * Real.arcsin (Real.sqrt (haversineTerm p q))

/-- Modelled from the spec: the great-circle distance
`d = 2·R·asin(sqrt(haversineTerm))` with `R = 6371000` meters, i.e.
`R` times the angular separation. -/
noncomputable def haversineDistance (p q : GeoPoint) : ℝ :=
  6371000 * angularSeparation p q

theorem haversineTerm_self (A : GeoPoint) : haversineTerm A A = 0 := by
  unfold haversineTerm
  simp

theorem haversineTerm_comm (A B : GeoPoint) :
    haversineTerm A B = haversineTerm B A := by
  unfold haversineTerm
  have h1 : Real.sin ((B.lat - A.lat) / 2) ^ 2
      = Real.sin ((A.lat - B.lat) / 2) ^ 2 := by
    rw [show (B.lat - A.lat) / 2 = -((A.lat - B.lat) / 2) by ring, Real.sin_neg]
    ring
  have h2 : Real.sin ((B.lon - A.lon) / 2) ^ 2
      = Real.sin ((A.lon - B.lon) / 2) ^ 2 := by
    rw [show (B.lon - A.lon) / 2 = -((A.lon - B.lon) / 2) by ring, Real.sin_neg]
    ring
  rw [h1, h2]; ring

/-- C9: the haversine great-circle distance satisfies
`distance(A, A) = 0`, `distance(A, B) = distance(B, A)`, and it is
monotonically non-decreasing in the angular separation of the two
points. -/
theorem haversine_distance_props (A B C D : GeoPoint) :
    haversineDistance A A = 0 ∧
      haversineDistance A B = haversineDistance B A ∧
      (angularSeparation A B ≤ angularSeparation C D →
        haversineDistance A B ≤ haversineDistance C D) := by
  refine ⟨?_, ?_, ?_⟩
  · unfold haversineDistance angularSeparation
    rw [haversineTerm_self]
    simp
  · unfold haversineDistance angularSeparation
    rw [haversineTerm_comm]
  · intro h
    unfold haversineDistance
    exact mul_le_mul_of_nonneg_left h (by norm_num)

/-- C9 witness: the monotonicity conjunct applied at the origin point with
equal separations. -/
theorem haversine_distance_props_witness :
    haversineDistance ⟨0, 0⟩ ⟨0, 0⟩ ≤ haversineDistance ⟨0, 0⟩ ⟨0, 0⟩ :=
  (haversine_distance_props ⟨0, 0⟩ ⟨0, 0⟩ ⟨0, 0⟩ ⟨0, 0⟩).2.2 (le_refl _)
